import Mathlib

/-!
Shallow embedding of `add_taxa_to_align.py` (supermatrix pipeline) and proofs
of the specification claims about it.  External tools (hmmbuild, hmmsearch,
mafft, fasttree) are black boxes; we embed the pure logic of the script:
partition parsing, alignment slicing, hmm-table filtering, dynamic e-value
estimation, degapping/median computation, sequence collection, and
supermatrix partition bookkeeping.  Significance values and scores are
modelled as rationals, sequences as lists of characters, and file contents
as lists of records or lines.
-/

namespace AddTaxa

/-- A fasta/alignment record: identifier, free-text description, sequence
(with or without gap characters).  Mirrors a Biopython `SeqRecord` as used by
the script. -/
structure SeqRecord where
  id : String
  description : String
  seq : List Char
  deriving Repr, DecidableEq

/-- One line of an hmmsearch `--tblout` table, as far as the script reads it:
comment/empty lines are skipped, and from a hit row the script uses columns
0 (target name), 4 (full-sequence E-value) and 5 (full-sequence score). -/
inductive HmmLine where
  | comment : HmmLine
  | hit (targetname : String) (evalue : ℚ) (score : ℚ) : HmmLine
  deriving Repr, DecidableEq

/-- The maximum-e-value scan in `get_evalue_from_hmm` (lines 130-139):
`maxevalue = 0.0`, then for every non-comment row,
`if evalue > maxevalue: maxevalue = evalue`. -/
def maxEvalueScan : List HmmLine → ℚ :=
  List.foldl
    (fun m l =>
      match l with
      | .comment => m
      | .hit _ e _ => if e > m then e else m)
    0

/-- The threshold derivation of `get_evalue_from_hmm` (lines 140-143), applied
to a parsed self-search table: take the maximum e-value over all non-comment
rows; if it is `0.0` substitute `1e-300`, otherwise multiply by the
correction factor (the script's default is `1e5`). -/
def get_evalue_from_hmm (table : List HmmLine) (correction : ℚ) : ℚ :=
  let maxevalue := maxEvalueScan table
  if maxevalue = 0 then 1 / 10 ^ 300 else maxevalue * correction

/-- The filtering loop of `hmmtable_to_seqids` (lines 103-117), with the
running maximum score threaded as the first argument.  On a hit row the
running maximum is updated first (`if bitscore > maxscore: maxscore =
bitscore`), then the row is accepted iff
`evalue <= evaluecutoff and bitscore > maxscore * scorecutoff`. -/
def hmmLoop (evaluecutoff scorecutoff : ℚ) : ℚ → List HmmLine → List String
  | _, [] => []
  | maxscore, .comment :: rest => hmmLoop evaluecutoff scorecutoff maxscore rest
  | maxscore, .hit t e s :: rest =>
    let m := if s > maxscore then s else maxscore
    (if e ≤ evaluecutoff ∧ s > m * scorecutoff then [t] else []) ++
      hmmLoop evaluecutoff scorecutoff m rest

/-- Function `hmmtable_to_seqids` (lines 96-117): parse hits from an hmm tblout table
and return the list of kept target identifiers, in input order.  The script's
default `scorecutoff` is `0.5`. -/
def hmmtable_to_seqids (table : List HmmLine) (evaluecutoff scorecutoff : ℚ) :
    List String :=
  hmmLoop evaluecutoff scorecutoff 0 table

/-- A hit row annotated with the running maximum score up to and including
that row (seeded, as in the script, with `0`): the reference, two-pass
formulation of the Hit Filter used to state claim C2. -/
structure AnnotatedHit where
  targetname : String
  evalue : ℚ
  score : ℚ
  maxUpTo : ℚ
  deriving Repr, DecidableEq

/-- Annotate each hit row of a table with the running maximum score seen up
to and including that row, starting from `init`. -/
def runningMax (init : ℚ) : List HmmLine → List AnnotatedHit
  | [] => []
  | .comment :: rest => runningMax init rest
  | .hit t e s :: rest =>
    ⟨t, e, s, max s init⟩ :: runningMax (max s init) rest

/-- The e-values of the non-comment rows of a table, in order. -/
def hitEvalues : List HmmLine → List ℚ :=
  List.filterMap (fun l => match l with | .comment => none | .hit _ e _ => some e)

/-! ### Partition file parsing (`get_partitions`, lines 40-51) -/

/-- Whitespace recognised by Python's `str.strip()`/`str.split()` (the
characters that occur in partition files). -/
def isPyWS (c : Char) : Bool :=
  c = ' ' || c = '\t' || c = '\n' || c = '\r' || c = '\x0b' || c = '\x0c'

/-- Python `str.strip()`: remove leading and trailing whitespace. -/
def pyStrip (s : List Char) : List Char :=
  ((s.dropWhile isPyWS).reverse.dropWhile isPyWS).reverse

/-- Python `str.split(sep)` for a one-character separator `sep`:
`"a,,b".split(",") = ["a","","b"]` and `"".split(",") = [""]`. -/
def splitOnChar (sep : Char) : List Char → List (List Char)
  | [] => [[]]
  | c :: cs =>
    let rest := splitOnChar sep cs
    if c = sep then [] :: rest
    else
      match rest with
      | [] => [[c]]
      | r :: rs => (c :: r) :: rs

/-- The numeric value of a decimal digit character. -/
def digitVal (c : Char) : Option Nat :=
  if c.isDigit then some (c.toNat - '0'.toNat) else none

/-- Parse a nonempty all-digit string as a natural number. -/
def digits? (s : List Char) : Option Nat :=
  if s.isEmpty then none
  else s.foldl (fun acc c => acc.bind fun n => (digitVal c).map fun d => 10 * n + d)
    (some 0)

/-- Python `int(s)` on a string: surrounding whitespace is ignored, an
optional sign precedes a nonempty digit run; anything else raises
`ValueError`, modelled as `none`. -/
def pyInt? (s : List Char) : Option Int :=
  match pyStrip s with
  | '-' :: ds => (digits? ds).map fun n => -(n : Int)
  | '+' :: ds => (digits? ds).map fun n => (n : Int)
  | ds => (digits? ds).map fun n => (n : Int)

/-- Variant of `List.mapM` over `Option`, written by structural recursion so that it
unfolds in proofs; the first failing element makes the whole result `none`
(as the first `ValueError` aborts the Python loop). -/
def optionTraverse (f : α → Option β) : List α → Option (List β)
  | [] => some []
  | a :: as =>
    match f a, optionTraverse f as with
    | some b, some bs => some (b :: bs)
    | _, _ => none

/-- The comma-delimited tokens of a partition file: every line is stripped,
empty lines are skipped, and the remaining lines are split on `','` and
flattened in file order (lines 43-47). -/
def partitionTokens (lines : List (List Char)) : List (List Char) :=
  ((lines.map pyStrip).filter (fun l => !l.isEmpty)).flatMap (splitOnChar ',')

/-- One token of a partition file becomes `tuple(int(i) for i in
block.split(":"))` (line 48): every `':'`-separated field is parsed as an
integer, and the tuple has one entry per field (whatever their number). -/
def parseBlock (block : List Char) : Option (List Int) :=
  optionTraverse pyInt? (splitOnChar ':' block)

/-- Function `get_partitions` (lines 40-51) applied to the file's lines: the parsed
tuples, one per comma-delimited token, or `none` when some field raises
`ValueError` in `int()`. -/
def get_partitions (lines : List (List Char)) : Option (List (List Int)) :=
  optionTraverse parseBlock (partitionTokens lines)

/-! ### Alignment slicing (`make_alignments`, lines 53-64) -/

/-- Normalisation of a (possibly negative) Python slice bound against a
sequence of length `n`: negative indices count from the end, and bounds are
clamped to `[0, n]`. -/
def pyIndex (i : Int) (n : Nat) : Nat :=
  if i < 0 then ((n : Int) + i).toNat else min i.toNat n

/-- Python slice `l[s:e]` (step 1). -/
def pySlice (s e : Int) (l : List α) : List α :=
  (l.take (pyIndex e l.length)).drop (pyIndex s l.length)

/-- The column slice the script takes for one partition:
`alignedseqs[:, part[0]-1:part[1]]` (line 59) keeps every row, restricted to
Python slice `[start-1 : end]` of its sequence. -/
def slicePartition (p : Int × Int) (alignedseqs : List SeqRecord) : List SeqRecord :=
  alignedseqs.map (fun r => { r with seq := pySlice (p.1 - 1) p.2 r.seq })

/-- Function `make_alignments` (lines 53-64): one sub-alignment per partition, in
partition order.  The script writes each sub-alignment to a file named
`"{base}_{start}_{end}_part.aln"` and returns the filenames in this same
order; the name is a function of the partition bounds, which we carry in
place of the path. -/
def make_alignments (alignedseqs : List SeqRecord) (partitions : List (Int × Int)) :
    List ((Int × Int) × List SeqRecord) :=
  partitions.map (fun p => (p, slicePartition p alignedseqs))

/-! ### Degapping and medians (`unalign_sequences`, lines 149-167) -/

/-- Degap one sequence: `gappedseq.replace("-","").replace("X","")`
(line 155) removes every `'-'` and every `'X'`. -/
def degap (s : List Char) : List Char :=
  s.filter (fun c => c != '-' && c != 'X')

/-- A record with its sequence degapped (lines 154-156). -/
def degapRecord (r : SeqRecord) : SeqRecord :=
  { r with seq := degap r.seq }

/-- Insert into a sorted list of naturals. -/
def insertSorted (x : Nat) : List Nat → List Nat
  | [] => [x]
  | y :: ys => if x ≤ y then x :: y :: ys else y :: insertSorted x ys

/-- Python `sorted` on a list of naturals (any correct sort computes the
same list; insertion sort unfolds well in proofs). -/
def pySorted : List Nat → List Nat
  | [] => []
  | x :: xs => insertSorted x (pySorted xs)

/-- Function `unalign_sequences` (lines 149-167): degap every record of the
alignment; when `calculatemedian`, every degapped length enters `sizelist`
(line 158) *before* the `removeempty` skip (line 159), and the returned
median is `sorted(sizelist)[len(sizelist)/2]` (line 164, Python 2 floor
division; on an empty alignment Python raises `IndexError`, modelled here by
the default `0`).  A record is written to the unaligned file only when
`notrim` is set (line 161), skipping empty degapped records when
`removeempty` is set.  Result: (records written to the file, optional
median). -/
def unalign_sequences (alignment : List SeqRecord)
    (notrim calculatemedian removeempty : Bool) : List SeqRecord × Option Nat :=
  let processed := alignment.map degapRecord
  let sizelist := processed.map (fun r => r.seq.length)
  let written :=
    if notrim then
      if removeempty then processed.filter (fun r => r.seq.length != 0) else processed
    else []
  let median :=
    if calculatemedian then some ((pySorted sizelist).getD (sizelist.length / 2) 0)
    else none
  (written, median)

/-! ### Sequence collection (`collect_sequences`, lines 169-190) -/

/-- The per-hit rewrite applied when output is destined for a supermatrix
(lines 181-183): the record's id becomes the species name and its
description is cleared. -/
def rewriteRecord (dosupermatrix : Bool) (spname : String) (r : SeqRecord) : SeqRecord :=
  if dosupermatrix then { r with id := spname, description := "" } else r

/-- The inner loop of `collect_sequences` over one species' hit list
(lines 177-185), with the `writeout` counter threaded: stop when `writeout ==
maxhits`; keep a hit when its length is at least `median * lengthcutoff`,
rewriting it for supermatrix output when requested. -/
def keepLoop (median : Nat) (lengthcutoff : ℚ) (maxhits : Nat) (spname : String)
    (dosupermatrix : Bool) : Nat → List SeqRecord → List SeqRecord
  | _, [] => []
  | writeout, r :: rest =>
    if writeout = maxhits then []
    else if (median : ℚ) * lengthcutoff ≤ (r.seq.length : ℚ) then
      rewriteRecord dosupermatrix spname r ::
        keepLoop median lengthcutoff maxhits spname dosupermatrix (writeout + 1) rest
    else keepLoop median lengthcutoff maxhits spname dosupermatrix writeout rest

/-- The dummy entry `print >> notaln, ">{}".format(speciesnames[i])`
(line 187): a header-only fasta record under the species name. -/
def placeholderRecord (spname : String) : SeqRecord :=
  ⟨spname, "", []⟩

/-- What `collect_sequences` appends for one species (lines 175-189): the
kept hits, or the single placeholder record when `writeout` stayed `0`. -/
def speciesOutput (median : Nat) (lengthcutoff : ℚ) (maxhits : Nat) (spname : String)
    (dosupermatrix : Bool) (hitlist : List SeqRecord) : List SeqRecord :=
  let kept := keepLoop median lengthcutoff maxhits spname dosupermatrix 0 hitlist
  if kept.isEmpty then [placeholderRecord spname] else kept

/-- Function `collect_sequences` (lines 169-190) viewed as the final contents of the
file `unalignednewtaxa`: first `unalign_sequences` is called with the given
`notrim`, `calculatemedian=True`, `removeempty=False` (line 172), writing
(mode `'w'`) the degapped seed records only when `notrim` is set; then the
per-species records are appended (mode `'a'`), species in `hitlistolists`
order, each under `speciesnames[i]` (modelled with `getD`; the script
assumes one name per species list). -/
def collect_sequences (alignment : List SeqRecord) (hitlistolists : List (List SeqRecord))
    (lengthcutoff : ℚ) (speciesnames : List String) (maxhits : Nat)
    (dosupermatrix notrim : Bool) : List SeqRecord :=
  let u := unalign_sequences alignment notrim true false
  let median := u.2.getD 0
  u.1 ++ hitlistolists.enum.flatMap
    (fun p => speciesOutput median lengthcutoff maxhits (speciesnames.getD p.1 "")
      dosupermatrix p.2)

/-! ### Supermatrix partition bookkeeping (`main`, lines 372-375) -/

/-- The partition-descriptor loop of `main` (lines 372-375) with the
`runningsum` accumulator explicit: for each extended alignment's column
count, append `"{runningsum+1}:{runningsum+length}"` and advance
`runningsum` by the length. -/
def partDescLoop : Nat → List Nat → List String
  | _, [] => []
  | runningsum, n :: rest =>
    (toString (runningsum + 1) ++ ":" ++ toString (runningsum + n)) ::
      partDescLoop (runningsum + n) rest

/-- The `partitionlist` built by `main` from the column counts of the
extended alignments, in input order (`runningsum` starts at `0`, line 331). -/
def supermatrix_partitions (lengths : List Nat) : List String :=
  partDescLoop 0 lengths

/-! ### Species name fallback (`main`, line 350) -/

/-- Model of `os.path.basename` for the paths at hand: the part after the last
`'/'`. -/
def basename (path : List Char) : List Char :=
  (splitOnChar '/' path).getLastD []

/-- Line 350's fallback expression
`[os.path.basename(newspeciesfile) for f in newtaxafiles]`, exactly as
written: the comprehension iterates over `newtaxafiles` binding `f`, but its
body evaluates the name `newspeciesfile`, which is *not bound* at that point
of `main` (the loop binding it starts on line 351).  The environment's value
for that name is passed as an `Option`; evaluating an unbound name raises
`NameError`, modelled as `none` (an empty `newtaxafiles` never evaluates the
body, hence succeeds). -/
def speciesnames_fallback (newspeciesfile : Option (List Char))
    (newtaxafiles : List (List Char)) : Option (List (List Char)) :=
  optionTraverse (fun _ => newspeciesfile.map basename) newtaxafiles

/-! ## Helper lemmas -/

/-- The script's conditional update `if e > m then e else m` is the maximum. -/
theorem ite_gt_eq_max (e m : ℚ) : (if e > m then e else m) = max m e := by
  rcases le_or_lt e m with h | h
  · rw [if_neg (not_lt.mpr h), max_eq_left h]
  · rw [if_pos h, max_eq_right h.le]

/-- The e-value scan computes the fold of `max` over the hit e-values. -/
theorem maxEvalueScan_eq_foldl (table : List HmmLine) :
    maxEvalueScan table = (hitEvalues table).foldl max 0 := by
  suffices h : ∀ (init : ℚ),
      List.foldl
        (fun m l =>
          match l with
          | HmmLine.comment => m
          | HmmLine.hit _ e _ => if e > m then e else m)
        init table
        = (hitEvalues table).foldl max init by
    exact h 0
  induction table with
  | nil => intro init; rfl
  | cons l rest ih =>
    intro init
    cases l with
    | comment => simpa [hitEvalues] using ih init
    | hit t e s => simpa [hitEvalues, ite_gt_eq_max] using ih (max init e)

/-- The filtering loop equals the two-pass "annotate with running maximum,
then filter" formulation, for any initial running maximum. -/
theorem hmmLoop_eq_runningMax (c f : ℚ) (table : List HmmLine) : ∀ (m : ℚ),
    hmmLoop c f m table
      = (runningMax m table).filterMap
          (fun a => if a.evalue ≤ c ∧ a.maxUpTo * f < a.score then some a.targetname else none) := by
  induction table with
  | nil => intro m; rfl
  | cons l rest ih =>
    intro m
    cases l with
    | comment => simpa [hmmLoop, runningMax] using ih m
    | hit t e s =>
      simp only [hmmLoop, runningMax, List.filterMap_cons, ite_gt_eq_max, max_comm m s]
      by_cases h : e ≤ c ∧ (max s m) * f < s
      · simp [h, gt_iff_lt, ih (max s m)]
      · simp [h, gt_iff_lt, ih (max s m)]

/-! ## Claims -/

/-- C1. Dynamic threshold estimation: for every self-search result table,
when the scanned maximum e-value is nonzero the derived cutoff equals that
maximum multiplied by the correction factor `1e5`; the scanned maximum is
the `max`-fold over all non-comment hit rows' e-values; self-hit e-values
`[1e-20, 1e-15, 1e-10]` yield the cutoff `1e-5`; and when every self-hit
reports `0.0` the cutoff is exactly the constant `1e-300`. -/
theorem dynamic_threshold_spec :
    (∀ table : List HmmLine, maxEvalueScan table ≠ 0 →
      get_evalue_from_hmm table 100000 = maxEvalueScan table * 100000)
    ∧ (∀ table : List HmmLine, maxEvalueScan table = (hitEvalues table).foldl max 0)
    ∧ get_evalue_from_hmm
        [.hit "s1" (1 / 10 ^ 20) 0, .hit "s2" (1 / 10 ^ 15) 0, .hit "s3" (1 / 10 ^ 10) 0]
        100000
      = 1 / 10 ^ 5
    ∧ get_evalue_from_hmm [.hit "s1" 0 0, .hit "s2" 0 0, .hit "s3" 0 0] 100000
      = 1 / 10 ^ 300 := by
  refine ⟨?_, maxEvalueScan_eq_foldl, ?_, ?_⟩
  · intro table h
    simp only [get_evalue_from_hmm, if_neg h]
  · simp only [get_evalue_from_hmm, maxEvalueScan, List.foldl]
    norm_num
  · simp [get_evalue_from_hmm, maxEvalueScan]

/-- Witness for C1: a concrete table with nonzero maximum e-value, at which
the first conjunct of the theorem applies. -/
theorem dynamic_threshold_spec_witness :
    maxEvalueScan [HmmLine.hit "s1" (1 / 2) 0] ≠ 0
    ∧ get_evalue_from_hmm [HmmLine.hit "s1" (1 / 2) 0] 100000
      = maxEvalueScan [HmmLine.hit "s1" (1 / 2) 0] * 100000 :=
  ⟨by simp [maxEvalueScan],
   dynamic_threshold_spec.1 [HmmLine.hit "s1" (1 / 2) 0]
     (by simp [maxEvalueScan])⟩

/-- C2. Hit Filter online policy: filtering a search-result table equals
annotating every non-comment row with the running maximum score up to and
including that row and accepting exactly the rows with significance ≤ the
cutoff and score > running-max × fraction, identifiers in input-row order;
with scores `[50, 80, 40]` under a cutoff admitting all significances and
the default fraction `0.5`, rows 1 and 2 are accepted and row 3 is
rejected. -/
theorem hit_filter_spec :
    (∀ (table : List HmmLine) (c f : ℚ),
      hmmtable_to_seqids table c f
        = (runningMax 0 table).filterMap
            (fun a =>
              if a.evalue ≤ c ∧ a.maxUpTo * f < a.score then some a.targetname else none))
    ∧ hmmtable_to_seqids
        [.hit "t1" 0 50, .hit "t2" 0 80, .hit "t3" 0 40] 1 (1 / 2)
      = ["t1", "t2"] := by
  constructor
  · intro table c f
    exact hmmLoop_eq_runningMax c f table 0
  · simp only [hmmtable_to_seqids, hmmLoop]
    norm_num

/-- The inner collection loop keeps, from the hits in order, the first
`maxhits - writeout` hits of sufficient length, each rewritten for
supermatrix output when requested. -/
theorem keepLoop_eq_take_filter (median : Nat) (lengthcutoff : ℚ) (maxhits : Nat)
    (spname : String) (dosupermatrix : Bool) (hitlist : List SeqRecord) :
    ∀ (writeout : Nat), writeout ≤ maxhits →
      keepLoop median lengthcutoff maxhits spname dosupermatrix writeout hitlist
        = ((hitlist.filter
              (fun r => (median : ℚ) * lengthcutoff ≤ (r.seq.length : ℚ))).take
            (maxhits - writeout)).map (rewriteRecord dosupermatrix spname) := by
  induction hitlist with
  | nil => intro w _; simp [keepLoop]
  | cons r rest ih =>
    intro w hw
    by_cases hstop : w = maxhits
    · subst hstop
      simp [keepLoop]
    · have hlt : w < maxhits := lt_of_le_of_ne hw hstop
      by_cases hlen : (median : ℚ) * lengthcutoff ≤ (r.seq.length : ℚ)
      · have hsub : maxhits - w = (maxhits - (w + 1)) + 1 := by omega
        simp only [keepLoop, if_neg hstop, if_pos hlen, List.filter_cons,
          decide_eq_true_eq, hlen, if_pos, hsub, List.take_succ_cons, List.map_cons]
        rw [ih (w + 1) hlt]
      · simp only [keepLoop, if_neg hstop, if_neg hlen, List.filter_cons,
          decide_eq_true_eq, hlen, if_neg, ite_false]
        rw [ih w hw]

/-- C6. Sequence Collector selection: for every species, starting the
`writeout` counter at `0`, the kept hits are exactly the first `maxhits`
hits (in accepted-list order) whose ungapped length is at least
`median × length-ratio` (rewritten for supermatrix output when requested);
with median `100` and ratio `0.5`, a hit of length `49` is rejected and one
of length `50` is accepted. -/
theorem collector_selection_spec :
    (∀ (median : Nat) (lengthcutoff : ℚ) (maxhits : Nat) (spname : String)
        (dosupermatrix : Bool) (hitlist : List SeqRecord),
      keepLoop median lengthcutoff maxhits spname dosupermatrix 0 hitlist
        = ((hitlist.filter
              (fun r => (median : ℚ) * lengthcutoff ≤ (r.seq.length : ℚ))).take
            maxhits).map (rewriteRecord dosupermatrix spname))
    ∧ keepLoop 100 (1 / 2) 1 "sp" false 0 [⟨"h49", "", List.replicate 49 'G'⟩] = []
    ∧ keepLoop 100 (1 / 2) 1 "sp" false 0 [⟨"h50", "", List.replicate 50 'G'⟩]
      = [⟨"h50", "", List.replicate 50 'G'⟩] := by
  refine ⟨fun median lengthcutoff maxhits spname dosupermatrix hitlist => ?_, ?_, ?_⟩
  · simpa using
      keepLoop_eq_take_filter median lengthcutoff maxhits spname dosupermatrix hitlist 0
        (Nat.zero_le _)
  · simp [keepLoop]
    norm_num
  · simp [keepLoop, rewriteRecord]
    norm_num

/-- C7. Placeholder emission: whenever a species' inner collection loop
keeps zero hits, the Sequence Collector emits for that species exactly one
empty placeholder record, whose identifier is the species' display name. -/
theorem placeholder_emission_spec (median : Nat) (lengthcutoff : ℚ) (maxhits : Nat)
    (spname : String) (dosupermatrix : Bool) (hitlist : List SeqRecord)
    (h : keepLoop median lengthcutoff maxhits spname dosupermatrix 0 hitlist = []) :
    speciesOutput median lengthcutoff maxhits spname dosupermatrix hitlist
      = [placeholderRecord spname]
    ∧ (placeholderRecord spname).id = spname
    ∧ (placeholderRecord spname).seq = [] := by
  refine ⟨?_, rfl, rfl⟩
  simp [speciesOutput, h]

/-- Witness for C7: a species with an empty hit list keeps zero hits and
receives the placeholder record. -/
theorem placeholder_emission_spec_witness :
    speciesOutput 100 (1 / 2) 1 "sp1" false [] = [placeholderRecord "sp1"]
    ∧ (placeholderRecord "sp1").id = "sp1"
    ∧ (placeholderRecord "sp1").seq = [] :=
  placeholder_emission_spec 100 (1 / 2) 1 "sp1" false [] rfl

/-- C10. The median ungapped length computed by `unalign_sequences` when
`calculatemedian` is set is the element at 0-based index `⌊n/2⌋` of the
sorted list of the degapped lengths of all `n` members, for any values of
the other two flags (in particular `removeempty` does not remove anything
from that list); for degapped lengths `[1, 3]` the median is `3`, the upper
middle value, not the mean `2`; and a zero-length member stays in the list
even under `removeempty`, so degapped lengths `[0, 2, 4]` give median `2`. -/
theorem median_upper_middle_spec :
    (∀ (alignment : List SeqRecord) (notrim removeempty : Bool),
      (unalign_sequences alignment notrim true removeempty).2
        = some ((pySorted (alignment.map (fun r => (degap r.seq).length))).getD
            (alignment.length / 2) 0))
    ∧ (unalign_sequences [⟨"a", "", ['G']⟩, ⟨"b", "", ['G', 'G', 'G']⟩] false true false).2
      = some 3
    ∧ (3 : ℚ) ≠ ((1 : ℚ) + 3) / 2
    ∧ (unalign_sequences
        [⟨"a", "", []⟩, ⟨"b", "", ['G', 'G']⟩, ⟨"c", "", ['G', 'G', 'G', 'G']⟩]
        false true true).2
      = some 2 := by
  refine ⟨?_, by decide, by norm_num, by decide⟩
  intro alignment notrim removeempty
  have hmap : ((fun (r : SeqRecord) => r.seq.length) ∘ degapRecord)
      = fun (r : SeqRecord) => (degap r.seq).length := by
    funext r
    rfl
  simp [unalign_sequences, List.map_map, hmap]

/-- C3 counterexample: with the no-trim flag unset (the script's default),
the combined file does *not* begin with the seed alignment's degapped
members — for a seed with one member and a species with no hits, the file
holds only the placeholder record, and that record is not the degapped seed
member. -/
theorem collector_combined_file_counterexample :
    collect_sequences [⟨"seed1", "", ['A', 'A', '-']⟩] [[]] (1 / 2) ["sp1"] 1 false false
      = [placeholderRecord "sp1"]
    ∧ placeholderRecord "sp1" ≠ degapRecord ⟨"seed1", "", ['A', 'A', '-']⟩ := by
  constructor
  · simp [collect_sequences, unalign_sequences, speciesOutput, keepLoop,
      placeholderRecord, List.enum]
  · decide

/-- C3 amended: the Sequence Collector writes the seed alignment's degapped
member sequences ahead of the per-species records exactly when the no-trim
flag is set; when it is unset the file holds only the per-species accepted
(or placeholder) records, in species order in both cases. -/
theorem collector_combined_file_amended (alignment : List SeqRecord)
    (hitlistolists : List (List SeqRecord)) (lengthcutoff : ℚ)
    (speciesnames : List String) (maxhits : Nat) (dosupermatrix notrim : Bool) :
    collect_sequences alignment hitlistolists lengthcutoff speciesnames maxhits
        dosupermatrix notrim
      = (if notrim then alignment.map degapRecord else [])
        ++ hitlistolists.enum.flatMap
            (fun p =>
              speciesOutput ((unalign_sequences alignment notrim true false).2.getD 0)
                lengthcutoff maxhits (speciesnames.getD p.1 "") dosupermatrix p.2) := by
  cases notrim <;> simp [collect_sequences, unalign_sequences]

/-- The partition-descriptor loop, for any starting `runningsum`, lists for
each index the interval from the cumulative column count before it plus one
to the cumulative column count through it. -/
theorem partDescLoop_eq (lengths : List Nat) : ∀ (runningsum : Nat),
    partDescLoop runningsum lengths
      = (List.range lengths.length).map
          (fun i =>
            toString (runningsum + (lengths.take i).sum + 1) ++ ":"
              ++ toString (runningsum + (lengths.take (i + 1)).sum)) := by
  induction lengths with
  | nil => intro runningsum; rfl
  | cons n rest ih =>
    intro runningsum
    rw [partDescLoop, List.length_cons, List.range_succ_eq_map, List.map_cons,
      List.map_map, ih (runningsum + n)]
    refine List.cons_eq_cons.mpr ⟨by simp, List.map_congr_left ?_⟩
    intro i hi
    simp only [Function.comp_apply, List.take_succ_cons, List.sum_cons, Nat.add_assoc]

/-- C8. Supermatrix Assembler: processing the extended alignments' column
counts in input order, the `i`-th partition descriptor is
`"<cumulative+1>:<cumulative+length_i>"` where cumulative is the sum of the
column counts of all earlier alignments — so the descriptors are contiguous
and cover exactly the concatenated columns; column counts `[120, 80]` give
descriptors `["1:120", "121:200"]`. -/
theorem supermatrix_partition_spec :
    (∀ (lengths : List Nat),
      supermatrix_partitions lengths
        = (List.range lengths.length).map
            (fun i =>
              toString ((lengths.take i).sum + 1) ++ ":"
                ++ toString ((lengths.take (i + 1)).sum)))
    ∧ supermatrix_partitions [120, 80] = ["1:120", "121:200"] := by
  constructor
  · intro lengths
    simpa using partDescLoop_eq lengths 0
  · decide

/-- C9. The species-name fallback of `main` (line 350) is broken: the
comprehension's body reads the unbound name `newspeciesfile` (the loop
variable is `f`), so with taxa names omitted and a nonempty list of species
files the script raises `NameError` instead of producing the per-file base
names — and even under any binding of that name the expression could not
produce them, since it ignores `f`. -/
theorem speciesname_fallback_bug :
    speciesnames_fallback none [['a', '.', 'f', 'a'], ['b', '.', 'f', 'a']] = none
    ∧ speciesnames_fallback (some ['x']) [['a', '.', 'f', 'a'], ['b', '.', 'f', 'a']]
      ≠ some [basename ['a', '.', 'f', 'a'], basename ['b', '.', 'f', 'a']] := by
  constructor
  · rfl
  · decide

/-- Success of `optionTraverse` yields one output per input. -/
theorem optionTraverse_some_length (f : α → Option β) :
    ∀ (l : List α) (res : List β), optionTraverse f l = some res → res.length = l.length := by
  intro l
  induction l with
  | nil =>
    intro res h
    simp only [optionTraverse] at h
    cases h
    rfl
  | cons a as ih =>
    intro res h
    simp only [optionTraverse] at h
    cases hfa : f a with
    | none => rw [hfa] at h; cases h
    | some b =>
      rw [hfa] at h
      cases hrec : optionTraverse f as with
      | none => rw [hrec] at h; cases h
      | some bs =>
        rw [hrec] at h
        cases h
        simp [ih bs hrec]

/-- `optionTraverse` fails exactly when some element fails. -/
theorem optionTraverse_eq_none_iff (f : α → Option β) :
    ∀ (l : List α), optionTraverse f l = none ↔ ∃ a ∈ l, f a = none := by
  intro l
  induction l with
  | nil => simp [optionTraverse]
  | cons a as ih =>
    constructor
    · intro h
      simp only [optionTraverse] at h
      cases hfa : f a with
      | none => exact ⟨a, List.mem_cons_self a as, hfa⟩
      | some b =>
        rw [hfa] at h
        cases hrec : optionTraverse f as with
        | none =>
          obtain ⟨x, hx, hfx⟩ := ih.mp hrec
          exact ⟨x, List.mem_cons_of_mem a hx, hfx⟩
        | some bs =>
          rw [hrec] at h
          cases h
    · rintro ⟨x, hx, hfx⟩
      simp only [optionTraverse]
      rcases List.mem_cons.mp hx with rfl | hx'
      · rw [hfx]
      · rw [ih.mpr ⟨x, hx', hfx⟩]
        cases f a <;> rfl

/-- C4 counterexample: the token `"5"` lacks a `':'` separator, yet parsing
succeeds — it yields the 1-tuple `(5,)`, not a pair and not a parse
error. -/
theorem partition_reader_counterexample :
    get_partitions [['5']] = some [[(5 : Int)]] ∧ [(5 : Int)].length ≠ 2 := by
  constructor
  · rfl
  · decide

/-- C4 amended: for every partition file, parsing returns one integer tuple
per comma-delimited token, flattened across lines in file order — so on
success the number of parsed tuples equals the total token count — and it
fails with a parse error exactly when some `':'`-separated field of some
token is not an integer (a token with zero or several `':'` separators does
not itself fail; it yields a tuple of a different arity). -/
theorem partition_reader_amended (lines : List (List Char)) :
    (∀ ps, get_partitions lines = some ps → ps.length = (partitionTokens lines).length)
    ∧ (get_partitions lines = none ↔
        ∃ block ∈ partitionTokens lines,
          ∃ field ∈ splitOnChar ':' block, pyInt? field = none) := by
  constructor
  · intro ps h
    exact optionTraverse_some_length parseBlock (partitionTokens lines) ps h
  · rw [show get_partitions lines = optionTraverse parseBlock (partitionTokens lines) from rfl,
      optionTraverse_eq_none_iff parseBlock (partitionTokens lines)]
    constructor
    · rintro ⟨block, hb, hblock⟩
      obtain ⟨field, hf, hfield⟩ :=
        (optionTraverse_eq_none_iff pyInt? (splitOnChar ':' block)).mp hblock
      exact ⟨block, hb, field, hf, hfield⟩
    · rintro ⟨block, hb, field, hf, hfield⟩
      exact ⟨block, hb,
        (optionTraverse_eq_none_iff pyInt? (splitOnChar ':' block)).mpr ⟨field, hf, hfield⟩⟩

/-- Witness for C4 (amended): the file `"1:2,3:4"` parses into two tuples,
matching its two tokens. -/
theorem partition_reader_amended_witness :
    [[(1 : Int), 2], [3, 4]].length
      = (partitionTokens [['1', ':', '2', ',', '3', ':', '4']]).length :=
  (partition_reader_amended [['1', ':', '2', ',', '3', ':', '4']]).1
    [[(1 : Int), 2], [3, 4]] (by rfl)

/-- C5 counterexample: for a 2-column alignment and the partition `(1, 5)`
(which satisfies `start ≤ end`), the sliced sub-alignment has 2 columns, not
`end - start + 1 = 5` — Python slicing clamps the bound to the sequence
length. -/
theorem alignment_slicer_counterexample :
    (slicePartition (1, 5) [⟨"s1", "", ['A', 'B']⟩]).map (fun r => r.seq.length) = [2]
    ∧ (2 : Int) ≠ 5 - 1 + 1 := by
  constructor
  · rfl
  · decide

/-- C5 amended: for every alignment whose rows all have `ncols` columns and
every partition `(start, end)` with `1 ≤ start ≤ end ≤ ncols`, the sliced
sub-alignment keeps all original row identifiers in their original order and
every row has exactly `end - start + 1` columns; and the output list of
`make_alignments` is in the same order as the partition list (each entry
carrying its partition's bounds, from which the script derives the output
file name). -/
theorem alignment_slicer_amended :
    (∀ (alignedseqs : List SeqRecord) (ncols : Nat) (s e : Int),
      (∀ r ∈ alignedseqs, r.seq.length = ncols) → 1 ≤ s → s ≤ e → e ≤ (ncols : Int) →
        (slicePartition (s, e) alignedseqs).map (fun r => r.id)
            = alignedseqs.map (fun r => r.id)
        ∧ ∀ r ∈ slicePartition (s, e) alignedseqs, (r.seq.length : Int) = e - s + 1)
    ∧ (∀ (alignedseqs : List SeqRecord) (partitions : List (Int × Int)),
        (make_alignments alignedseqs partitions).map Prod.fst = partitions) := by
  constructor
  · intro alignedseqs ncols s e hcols hs hse hend
    constructor
    · simp only [slicePartition, List.map_map]
      rfl
    · intro r hr
      simp only [slicePartition, List.mem_map] at hr
      obtain ⟨r0, hr0, rfl⟩ := hr
      have hn : r0.seq.length = ncols := hcols r0 hr0
      simp only [pySlice, pyIndex, List.length_drop, List.length_take, hn]
      rw [if_neg (by omega), if_neg (by omega)]
      omega
  · intro alignedseqs partitions
    simp only [make_alignments, List.map_map]
    exact List.map_id partitions

/-- Witness for C5 (amended): slicing a 3-column alignment by the partition
`(2, 3)` keeps the row identifier and yields rows of `3 - 2 + 1` columns. -/
theorem alignment_slicer_amended_witness :
    (slicePartition (2, 3) [⟨"s1", "", ['A', 'B', 'C']⟩]).map (fun r => r.id)
        = [SeqRecord.mk "s1" "" ['A', 'B', 'C']].map (fun r => r.id)
    ∧ ∀ r ∈ slicePartition (2, 3) [⟨"s1", "", ['A', 'B', 'C']⟩],
        (r.seq.length : Int) = 3 - 2 + 1 :=
  alignment_slicer_amended.1 [⟨"s1", "", ['A', 'B', 'C']⟩] 3 2 3
    (by decide) (by decide) (by decide) (by decide)

end AddTaxa
